import Mathlib

/-!
# fu: the expiring-object store (api/api.go, api/file.go)

A shallow embedding of the core of the file-sharing service: the name
generator (File.setName), the catalog and blob store behind Core.Put, the
expiry sweep (Core.getExpired, Core.deleteExpired) and Core.Close.

Modelling conventions.

* A Go string and a byte slice are lists of bytes (UInt8).  A time.Time is an
  integer count of nanoseconds, a time.Duration an integer, and Add is +.
* The table files is the list of its committed rows in rowid order.  The
  constraints of the CREATE TABLE statement are enforced by the statements
  that change the table: INSERT refuses a name already present (UNIQUE) and
  assigns one more than the largest rowid in use (INTEGER PRIMARY KEY).
  Timestamps in the WHERE clause compare chronologically.
* A statement sent with db.Exec runs in autocommit mode on a connection of the
  pool; only a statement sent on a Tx belongs to that transaction, and Commit
  and Rollback act on those statements alone.
* The blob directory is a finite map from cleaned path to content, on a
  case-sensitive file system without links.
* Every effect that can fail for a reason outside the program (the driver,
  the disk, the generator) takes its outcome from an explicit environment
  record, one record per call of Put or deleteExpired.
* A function returning (T, error) is an Except Err T; a panic is an Err whose
  isPanic is true.
-/

namespace Fu

/-! ## Bytes, time, errors -/

/-- A Go string or byte slice. -/
abbrev Bytes := List UInt8

/-- The byte of an ASCII character. -/
def byteOf (ch : Char) : UInt8 := ch.toNat.toUInt8

/-- The bytes of an ASCII literal. -/
def bytes (s : String) : Bytes := s.toList.map byteOf

/-- A time.Time (nanoseconds) or time.Duration. -/
abbrev Time := Int

/-- The error values and panics the core can produce. -/
inductive Err where
  | splitHostPort | sqlOpen | ping | createTable | mkdirAll
  | begin | exec | uniqueName | lastInsertId | create | copy | commit
  | query | scan | rows | remove | notExist | bindArgs | tooManyVariables | dbClose
  | panicIntn | panicIndex | panicCloseNil | panicCloseClosed
deriving DecidableEq, Repr

deriving instance DecidableEq for Except

/-- Whether the value is a run-time panic rather than a returned error. -/
def Err.isPanic : Err → Bool
  | .panicIntn | .panicIndex | .panicCloseNil | .panicCloseClosed => true
  | _ => false

/-! ## api/file.go -/

/-- File represents a file upload: one row of the table files. -/
structure File where
  ID : Int
  Name : Bytes
  CreatedAt : Time
  ExpiresAt : Time
deriving DecidableEq, Repr

/-- The ID generator character set. -/
def charset : Bytes := bytes "ABCDEFGHJKLMNPQRSTUVWXYZabcdefghjkmnopqrstuvwxyz23456789"

/-- rand.Intn(n): panics when n is not positive, otherwise a value in [0, n)
chosen by the generator, whose raw output for this call is raw. -/
def randIntn (raw n : Nat) : Except Err Nat :=
  if n = 0 then .error .panicIntn else .ok (raw % n)

/-- Indexing s[i], which panics when i is out of range. -/
def byteAt (s : Bytes) (i : Nat) : Except Err UInt8 :=
  match s.get? i with
  | some b => .ok b
  | none => .error .panicIndex

/-- One iteration of the loop of setName, at index i. -/
def setNameStep (draws : Nat → Nat) (b : Bytes) (i : Nat) : Except Err Bytes :=
  match randIntn (draws i) charset.length with
  | .error e => .error e
  | .ok k =>
    match byteAt charset k with
    | .error e => .error e
    | .ok ch => .ok (b.set i ch)

/-- The loop `for i := range b` of setName over the remaining indices. -/
def setNameLoop (draws : Nat → Nat) : List Nat → Bytes → Except Err Bytes
  | [], b => .ok b
  | i :: is, b =>
    match setNameStep draws b i with
    | .error e => .error e
    | .ok b1 => setNameLoop draws is b1

/-- setName sets a pseudo-random name using the correct extension; draws i is
the raw output of the generator at the i-th call of rand.Intn. -/
def setName (f : File) (ext : Bytes) (draws : Nat → Nat) : Except Err File :=
  let b : Bytes := List.replicate 5 0
  match setNameLoop draws (List.range b.length) b with
  | .error e => .error e
  | .ok b1 => .ok { f with Name := b1 ++ ext }

/-- An ASCII uppercase letter. -/
def isUpper (b : UInt8) : Prop := byteOf 'A' ≤ b ∧ b ≤ byteOf 'Z'

/-- An ASCII lowercase letter. -/
def isLower (b : UInt8) : Prop := byteOf 'a' ≤ b ∧ b ≤ byteOf 'z'

/-- An ASCII digit. -/
def isDigit (b : UInt8) : Prop := byteOf '0' ≤ b ∧ b ≤ byteOf '9'

instance (b : UInt8) : Decidable (isUpper b) := by unfold isUpper; infer_instance

instance (b : UInt8) : Decidable (isLower b) := by unfold isLower; infer_instance

instance (b : UInt8) : Decidable (isDigit b) := by unfold isDigit; infer_instance

/-- The alphabet in the words of the specification: uppercase letters minus
I and O, lowercase letters minus l, digits minus 0 and 1. -/
def inSpecAlphabet (b : UInt8) : Prop :=
  (isUpper b ∧ b ≠ byteOf 'I' ∧ b ≠ byteOf 'O') ∨
  (isLower b ∧ b ≠ byteOf 'l') ∨
  (isDigit b ∧ b ≠ byteOf '0' ∧ b ≠ byteOf '1')

/-- The alphabet the constant charset spells out: as the specification has it,
and without the lowercase i as well. -/
def inCodeAlphabet (b : UInt8) : Prop :=
  (isUpper b ∧ b ≠ byteOf 'I' ∧ b ≠ byteOf 'O') ∨
  (isLower b ∧ b ≠ byteOf 'i' ∧ b ≠ byteOf 'l') ∨
  (isDigit b ∧ b ≠ byteOf '0' ∧ b ≠ byteOf '1')

instance (b : UInt8) : Decidable (inSpecAlphabet b) := by unfold inSpecAlphabet; infer_instance

instance (b : UInt8) : Decidable (inCodeAlphabet b) := by unfold inCodeAlphabet; infer_instance

/-- The byte setName stores for a raw generator output. -/
def pick (raw : Nat) : UInt8 := charset.getD (raw % charset.length) 0

/-! ## Library models: path/filepath, strings, os, io -/

/-- The path separator. -/
def sep : UInt8 := byteOf '/'

/-- The byte of a full stop. -/
def dot : UInt8 := byteOf '.'

/-- Split a path at every separator. -/
def splitSep : Bytes → List Bytes
  | [] => [[]]
  | b :: rest =>
    if b = sep then [] :: splitSep rest
    else
      match splitSep rest with
      | [] => [[b]]
      | h :: t => (b :: h) :: t

/-- One path element processed by filepath.Clean; out is the list of elements
kept so far, last element first. -/
def cleanStep (rooted : Bool) (out : List Bytes) (elt : Bytes) : List Bytes :=
  if elt = [] ∨ elt = [dot] then out
  else if elt = [dot, dot] then
    match out with
    | [] => if rooted then [] else [elt]
    | top :: below => if top = [dot, dot] then elt :: out else below
  else elt :: out

/-- filepath.Clean on a Unix path. -/
def filepathClean (path : Bytes) : Bytes :=
  let rooted := path.head? = some sep
  let out := ((splitSep path).foldl (cleanStep rooted) []).reverse
  let body := List.intercalate [sep] out
  if rooted then sep :: body
  else if body = [] then [dot] else body

/-- filepath.Join of two elements: empty leading elements are ignored and the
result is cleaned. -/
def filepathJoin (a b : Bytes) : Bytes :=
  if a ≠ [] then filepathClean (a ++ sep :: b)
  else if b ≠ [] then filepathClean b
  else []

/-- strings.Repeat. -/
def stringsRepeat (s : Bytes) (n : Nat) : Bytes := (List.replicate n s).flatten

/-- strings.Split with the empty separator, on ASCII input: one element per
byte. -/
def stringsExplode (s : Bytes) : List Bytes := s.map (fun b => [b])

/-- strings.Join. -/
def stringsJoin (elems : List Bytes) (sp : Bytes) : Bytes := List.intercalate sp elems

/-- The blob directory: path and content of every regular file. -/
abbrev FS := List (Bytes × Bytes)

/-- The content of the file at a path, if there is one. -/
def fsRead : FS → Bytes → Option Bytes
  | [], _ => none
  | (p, d) :: rest, name => if p = name then some d else fsRead rest name

/-- The directory without the file at a path. -/
def fsErase (fs : FS) (name : Bytes) : FS := fs.filter (fun e => decide (e.1 ≠ name))

/-- The directory with the file at a path replaced. -/
def fsWrite (fs : FS) (name data : Bytes) : FS := (name, data) :: fsErase fs name

/-- os.Create: creates or truncates the named file, or fails. -/
def osCreate (fs : FS) (name : Bytes) (fault : Bool) : FS × Option Err :=
  if fault then (fs, some .create) else (fsWrite fs name [], none)

/-- io.Copy into the open file at name: appends the whole source, or only its
first k bytes when the copy fails after k bytes (fault = some k). -/
def ioCopy (fs : FS) (name src : Bytes) (fault : Option Nat) : FS × Option Err :=
  let old := (fsRead fs name).getD []
  match fault with
  | none => (fsWrite fs name (old ++ src), none)
  | some k => (fsWrite fs name (old ++ src.take k), some .copy)

/-- os.Remove: fails with an error other than not-exist when fault is set,
removes the file when it exists, and reports not-exist otherwise. -/
def osRemove (fs : FS) (name : Bytes) (fault : Bool) : FS × Option Err :=
  if fault then (fs, some .remove)
  else if (fsRead fs name).isSome then (fsErase fs name, none)
  else (fs, some .notExist)

/-- os.IsNotExist. -/
def osIsNotExist (e : Err) : Bool := decide (e = .notExist)

/-! ## Library models: database/sql on the table files -/

/-- The statements the core sends. -/
inductive Stmt where
  | insert (name : Bytes) (createdAt expiresAt : Time)
  | delete (query : Bytes) (vals : List Int)
deriving DecidableEq, Repr

/-- The rowid an INSERT assigns. -/
def nextRowid (rows : List File) : Int :=
  match (rows.map File.ID).max? with
  | none => 1
  | some m => m + 1

/-- The number of parameters of a statement text. -/
def countPlaceholders (query : Bytes) : Nat := query.count (byteOf '?')

/-- The most parameters the engine accepts in one statement, the default
SQLITE_MAX_VARIABLE_NUMBER. -/
def maxVariableNumber : Nat := 32766

/-- The effect of one statement on the table, with the id it inserted.  A
DELETE with more parameters than the engine accepts is refused when it is
prepared, and one whose parameters are not matched one for one by the
arguments is refused when they are bound. -/
def runStmt (rows : List File) : Stmt → Except Err (List File × Int)
  | .insert name createdAt expiresAt =>
    if name ∈ rows.map File.Name then .error .uniqueName
    else
      let id := nextRowid rows
      .ok (rows ++ [{ ID := id, Name := name, CreatedAt := createdAt, ExpiresAt := expiresAt }], id)
  | .delete query vals =>
    if maxVariableNumber < countPlaceholders query then .error .tooManyVariables
    else if countPlaceholders query ≠ vals.length then .error .bindArgs
    else .ok (rows.filter (fun r => decide (r.ID ∉ vals)), 0)

/-- A transaction handle: the statements executed on it and not yet committed. -/
structure Tx where
  writes : List Stmt
deriving DecidableEq, Repr

/-- The method db.Begin. -/
def dbBegin (fault : Bool) : Except Err Tx :=
  if fault then .error .begin else .ok { writes := [] }

/-- The method db.Exec: the statement runs on a pooled connection in autocommit
mode, outside every open transaction. -/
def dbExec (rows : List File) (st : Stmt) (fault : Bool) : Except Err (List File × Int) :=
  if fault then .error .exec else runStmt rows st

/-- The method res.LastInsertId. -/
def lastInsertId (res : Int) (fault : Bool) : Except Err Int :=
  if fault then .error .lastInsertId else .ok res

/-- The statements of a transaction applied to the table in order; a statement
that fails is skipped. -/
def applyWrites (rows : List File) : List Stmt → List File
  | [] => rows
  | st :: rest =>
    match runStmt rows st with
    | .error _ => applyWrites rows rest
    | .ok (rows1, _) => applyWrites rows1 rest

/-- The method tx.Commit. -/
def txCommit (rows : List File) (tx : Tx) (fault : Bool) : List File × Option Err :=
  if fault then (rows, some .commit) else (applyWrites rows tx.writes, none)

/-- The method tx.Rollback: the statements of the transaction are dropped. -/
def txRollback (rows : List File) (_tx : Tx) : List File := rows

/-! ## api/api.go -/

/-- Config represents the core configuration parameters. -/
structure Config where
  Addr : Bytes
  Token : Bytes
  DataSourceName : Bytes
  UploadDir : Bytes
  MaxUploadSize : Int
deriving DecidableEq, Repr

/-- A channel of empty structs, of which only closing is used. -/
structure Chan where
  closed : Bool
deriving DecidableEq, Repr

/-- The connection pool behind a sql.DB handle. -/
structure DB where
  closed : Bool
deriving DecidableEq, Repr

/-- Core represents the central manager of application activity; a nil channel
is none. -/
structure Core where
  Config : Config
  db : DB
  quit : Option Chan
deriving DecidableEq, Repr

/-- The state outside the process: the table files and the blob directory. -/
structure World where
  rows : List File
  fs : FS
deriving DecidableEq, Repr

/-- The outcomes of the fallible calls of NewCore. -/
structure NewCoreEnv where
  splitErr : Bool
  openErr : Bool
  pingErr : Bool
  execErr : Bool
  mkdirErr : Bool
deriving DecidableEq, Repr

/-- NewCore returns a new Core. -/
def NewCore (config : Config) (env : NewCoreEnv) : Except Err Core :=
  if env.splitErr then .error .splitHostPort
  else if env.openErr then .error .sqlOpen
  else if env.pingErr then .error .ping
  else if env.execErr then .error .createTable
  else if env.mkdirErr then .error .mkdirAll
  -- c := Core with Config: config, db: db; the field quit is left at its zero value
  else .ok { Config := config, db := { closed := false }, quit := none }

/-- UploadForm represents a file upload form; File is the content the reader
delivers. -/
structure UploadForm where
  Duration : Time
  File : Bytes
  Ext : Bytes
deriving DecidableEq, Repr

/-- getFilePath returns the full path to the file. -/
def getFilePath (c : Core) (f : File) : Bytes :=
  filepathJoin c.Config.UploadDir f.Name

/-- The clock, the generator and the outcomes of the fallible calls of one Put. -/
structure PutEnv where
  now : Time
  draws : Nat → Nat
  beginErr : Bool
  execErr : Bool
  lastInsertIdErr : Bool
  createErr : Bool
  copyErr : Option Nat
  commitErr : Bool

/-- Put uploads a new file and returns the metadata. -/
def Put (c : Core) (w : World) (form : UploadForm) (env : PutEnv) : World × Except Err File :=
  -- f := File with CreatedAt: time.Now().UTC()
  let f : File := { ID := 0, Name := [], CreatedAt := env.now, ExpiresAt := 0 }
  -- f.ExpiresAt = f.CreatedAt.Add(form.Duration)
  let f : File := { f with ExpiresAt := f.CreatedAt + form.Duration }
  -- f.setName(form.Ext)
  match setName f form.Ext env.draws with
  | .error e => (w, .error e)
  | .ok f =>
  -- tx, err := c.db.Begin(); defer tx.Rollback()
  match dbBegin env.beginErr with
  | .error e => (w, .error e)
  | .ok tx =>
  -- res, err := c.db.Exec(query, f.Name, f.CreatedAt, f.ExpiresAt)
  match dbExec w.rows (.insert f.Name f.CreatedAt f.ExpiresAt) env.execErr with
  | .error e => ({ w with rows := txRollback w.rows tx }, .error e)
  | .ok (rows1, res) =>
  -- f.ID, err = res.LastInsertId()
  match lastInsertId res env.lastInsertIdErr with
  | .error e => ({ w with rows := txRollback rows1 tx }, .error e)
  | .ok id =>
  let f : File := { f with ID := id }
  -- name := c.getFilePath(f); file, err := os.Create(name)
  let name := getFilePath c f
  match osCreate w.fs name env.createErr with
  | (fs1, some e) => ({ rows := txRollback rows1 tx, fs := fs1 }, .error e)
  | (fs1, none) =>
  -- _, err = io.Copy(file, form.File)
  match ioCopy fs1 name form.File env.copyErr with
  | (fs2, some e) => ({ rows := txRollback rows1 tx, fs := fs2 }, .error e)
  | (fs2, none) =>
  -- err = tx.Commit()
  match txCommit rows1 tx env.commitErr with
  | (rows2, some e) => ({ rows := txRollback rows2 tx, fs := fs2 }, .error e)
  | (rows2, none) => ({ rows := rows2, fs := fs2 }, .ok f)

/-- The clock and the outcomes of the fallible calls of one deleteExpired;
removeErr f tells whether os.Remove fails, with an error other than not-exist,
in the iteration for f. -/
structure SweepEnv where
  now : Time
  queryErr : Bool
  scanErr : Bool
  rowsErr : Bool
  removeErr : File → Bool
  execErr : Bool

/-- getExpired returns a slice of expired files. -/
def getExpired (w : World) (env : SweepEnv) : Except Err (List File) :=
  -- SELECT id, name, created_at, expires_at FROM files WHERE expires_at < now
  if env.queryErr then .error .query
  else
    let files := w.rows.filter (fun r => decide (r.ExpiresAt < env.now))
    if env.scanErr && !files.isEmpty then .error .scan
    else if env.rowsErr then .error .rows
    else .ok files

/-- The loop of deleteExpired over the expired files. -/
def removeLoop (c : Core) (env : SweepEnv) : List File → FS → List Int → FS × List Int
  | [], fs, vals => (fs, vals)
  | f :: rest, fs, vals =>
    -- name := c.getFilePath(f); err = os.Remove(name)
    let name := getFilePath c f
    match osRemove fs name (env.removeErr f) with
    | (fs1, some e) =>
      -- if err != nil and not os.IsNotExist(err): log, continue
      if !osIsNotExist e then removeLoop c env rest fs1 vals
      else removeLoop c env rest fs1 (vals ++ [f.ID])
    -- vals = append(vals, f.ID)
    | (fs1, none) => removeLoop c env rest fs1 (vals ++ [f.ID])

/-- The parameter list of the batch DELETE for n ids. -/
def deleteArgs (n : Nat) : Bytes :=
  stringsJoin (stringsExplode (stringsRepeat (bytes "?") n)) (bytes ", ")

/-- The text of the batch DELETE for n ids. -/
def deleteQuery (n : Nat) : Bytes :=
  bytes "DELETE FROM files WHERE id IN (" ++ deleteArgs n ++ bytes ")"

/-- The body of deleteExpired, which deletes expired files from the file system
and the database; the result is the new state, the returned count and the
returned error, together with the statements the call sent through db.Exec. -/
def deleteExpiredTrace (c : Core) (w : World) (env : SweepEnv) :
    (World × Nat × Option Err) × List Stmt :=
  -- files, err := c.getExpired()
  match getExpired w env with
  | .error e => ((w, 0, some e), [])
  | .ok files =>
    match removeLoop c env files w.fs [] with
    | (fs1, vals) =>
      -- n := len(vals); if n == 0 then return 0, nil
      let n := vals.length
      if n = 0 then (({ w with fs := fs1 }, 0, none), [])
      else
        -- args := strings.Join(strings.Split(strings.Repeat("?", n), ""), ", ")
        -- query := fmt.Sprintf("DELETE FROM files WHERE id IN (%s)", args)
        let query := deleteQuery n
        -- _, err = c.db.Exec(query, vals...)
        match dbExec w.rows (.delete query vals) env.execErr with
        | .error e => (({ w with fs := fs1 }, 0, some e), [.delete query vals])
        | .ok (rows1, _) => (({ rows := rows1, fs := fs1 }, n, none), [.delete query vals])

/-- deleteExpired deletes expired files from the file system and the database;
the result is the new state, the returned count and the returned error. -/
def deleteExpired (c : Core) (w : World) (env : SweepEnv) : World × Nat × Option Err :=
  (deleteExpiredTrace c w env).1

/-- Consecutive calls of deleteExpired, one per environment. -/
def sweeps (c : Core) : World → List SweepEnv → World
  | w, [] => w
  | w, env :: rest => sweeps c (deleteExpired c w env).1 rest

/-- The builtin close on a channel. -/
def chanClose : Option Chan → Except Err (Option Chan)
  | none => .error .panicCloseNil
  | some ch => if ch.closed then .error .panicCloseClosed else .ok (some { closed := true })

/-- Whether the case of Run that receives from the quit channel can fire: a
receive from a nil channel blocks forever, one from a closed channel is ready. -/
def quitReady : Option Chan → Bool
  | none => false
  | some ch => ch.closed

/-- Close cleans up for safe shutdown; closeErr is the outcome of db.Close. -/
def Close (c : Core) (closeErr : Bool) : Core × Except Err Unit :=
  -- close(c.quit)
  match chanClose c.quit with
  | .error e => (c, .error e)
  | .ok q =>
    -- return c.db.Close()
    ({ c with quit := q, db := { closed := true } },
      if closeErr then .error .dbClose else .ok ())

/-- The constraints of the table: ids are distinct (PRIMARY KEY) and names are
distinct (UNIQUE). -/
def Catalog (rows : List File) : Prop :=
  (rows.map File.ID).Nodup ∧ (rows.map File.Name).Nodup

instance (rows : List File) : Decidable (Catalog rows) := by
  unfold Catalog; infer_instance

/-- The parameter list in the words of the claim: n question marks separated
by a comma and a blank. -/
def placeholders : Nat → Bytes
  | 0 => []
  | 1 => bytes "?"
  | n + 2 => bytes "?, " ++ placeholders (n + 1)

/-- The text of the batch DELETE in the words of the claim: the statement with
the list of n question marks between its brackets. -/
def batchDelete (n : Nat) : Bytes :=
  bytes "DELETE FROM files WHERE id IN (" ++ placeholders n ++ bytes ")"

/-- The name setName produces for an extension and the raw outputs of the
generator, in closed form. -/
def genName (ext : Bytes) (draws : Nat → Nat) : Bytes :=
  [pick (draws 0), pick (draws 1), pick (draws 2), pick (draws 3), pick (draws 4)] ++ ext

/-- A name that is a single path element: it has no separator and is neither
empty nor one of the two dot elements. -/
def plainName (n : Bytes) : Prop := sep ∉ n ∧ n ≠ [] ∧ n ≠ [dot] ∧ n ≠ [dot, dot]

/-- The states the store reaches from an empty table by calls of Put and
deleteExpired, whatever the upload directory holds at the start. -/
inductive Reachable (c : Core) : World → Prop where
  | start (fs : FS) : Reachable c { rows := [], fs := fs }
  | put {w : World} (form : UploadForm) (env : PutEnv) :
      Reachable c w → Reachable c (Put c w form env).1
  | sweep {w : World} (env : SweepEnv) :
      Reachable c w → Reachable c (deleteExpired c w env).1

/-! ## Concrete inputs -/

/-- The configuration of the server with the default flags of cmd/fu. -/
def exConfig : Config :=
  { Addr := bytes ":8080", Token := [], DataSourceName := bytes "store.db",
    UploadDir := bytes "uploads", MaxUploadSize := 33554432 }

/-- A NewCore in which no call fails. -/
def noFaults : NewCoreEnv :=
  { splitErr := false, openErr := false, pingErr := false, execErr := false, mkdirErr := false }

/-- The Core that NewCore returns for exConfig. -/
def exCore : Core := { Config := exConfig, db := { closed := false }, quit := none }

/-- An empty table and an empty upload directory. -/
def emptyWorld : World := { rows := [], fs := [] }

/-- A Put at time now in which no call fails and every draw of the generator
is k. -/
def putEnv (now : Time) (k : Nat) : PutEnv :=
  { now := now, draws := fun _ => k, beginErr := false, execErr := false,
    lastInsertIdErr := false, createErr := false, copyErr := none, commitErr := false }

/-- A deleteExpired at time now in which the catalog calls succeed and every
os.Remove fails or not according to fail. -/
def sweepEnv (now : Time) (fail : Bool) : SweepEnv :=
  { now := now, queryErr := false, scanErr := false, rowsErr := false,
    removeErr := fun _ => fail, execErr := false }

/-- The upload of hello with extension .txt and a lifetime of 10. -/
def exForm : UploadForm := { Duration := 10, File := bytes "hello", Ext := bytes ".txt" }

/-- The state after one upload into the empty store at time 0: the row
(1, AAAAA.txt, 0, 10) and its blob. -/
def oneUpload : World := (Put exCore emptyWorld exForm (putEnv 0 0)).1

/-- The state after a second upload, of lifetime 100, named BBBBB.txt. -/
def twoUploads : World :=
  (Put exCore oneUpload { Duration := 100, File := bytes "world", Ext := bytes ".txt" }
    (putEnv 0 1)).1

/-- The state after an upload of lifetime 10 whose extension climbs out of its
own name, followed by an upload of lifetime 100 named BBBBB: both rows resolve
to the path uploads/BBBBB. -/
def aliasedUploads : World :=
  (Put exCore
    (Put exCore emptyWorld { Duration := 10, File := bytes "old", Ext := bytes "/../BBBBB" }
      (putEnv 0 0)).1
    { Duration := 100, File := bytes "hello", Ext := [] } (putEnv 0 1)).1

/-- The row of the first upload of oneUpload and twoUploads. -/
def rowA : File := { ID := 1, Name := bytes "AAAAA.txt", CreatedAt := 0, ExpiresAt := 10 }

/-- The row of the second upload of twoUploads. -/
def rowB : File := { ID := 2, Name := bytes "BBBBB.txt", CreatedAt := 0, ExpiresAt := 100 }

/-- The unexpired row of aliasedUploads. -/
def rowPlain : File := { ID := 2, Name := bytes "BBBBB", CreatedAt := 0, ExpiresAt := 100 }

/-! ## The name generator -/

theorem charset_length : charset.length = 56 := by decide

theorem pick_mem (raw : Nat) : pick raw ∈ charset := by
  have h : raw % charset.length < charset.length := Nat.mod_lt _ (by decide)
  unfold pick
  rw [List.getD_eq_getElem _ _ h]
  exact List.getElem_mem h

theorem setNameStep_eq (draws : Nat → Nat) (b : Bytes) (i : Nat) :
    setNameStep draws b i = .ok (b.set i (pick (draws i))) := by
  have h : draws i % charset.length < charset.length := Nat.mod_lt _ (by decide)
  have h0 : charset.length ≠ 0 := by decide
  simp [setNameStep, randIntn, byteAt, h0, pick, List.getD_eq_getElem _ _ h,
    List.getElem?_eq_getElem h]

/-- The name setName produces, in closed form. -/
theorem setName_eq (f : File) (ext : Bytes) (draws : Nat → Nat) :
    setName f ext draws = .ok { f with Name := genName ext draws } := by
  simp [setName, genName, List.range, List.range.loop, setNameLoop, setNameStep_eq]

theorem charset_alnum : ∀ b ∈ charset, (isUpper b ∨ isLower b ∨ isDigit b) ∧
    b ∉ [byteOf '0', byteOf 'O', byteOf '1', byteOf 'l', byteOf 'I'] := by
  decide

set_option maxRecDepth 100000 in
theorem charset_mem_fin : ∀ n : Fin 256,
    (UInt8.mk (BitVec.ofFin n) ∈ charset ↔ inCodeAlphabet (UInt8.mk (BitVec.ofFin n))) := by
  decide

theorem charset_mem_iff (b : UInt8) : b ∈ charset ↔ inCodeAlphabet b := by
  cases b with
  | mk v =>
    cases v with
    | ofFin n => exact charset_mem_fin n

/-- C7: for every extension and every outcome of the random draws, setName
returns without a panic and sets Name to a string of length 5 + len(ext) that
ends in ext after its first 5 bytes, each of which is a member of charset and
so a letter or digit other than 0, O, 1, l and I; every index rand.Intn yields
is within charset. -/
theorem setName_shape (f : File) (ext : Bytes) (draws : Nat → Nat) :
    ∃ name, setName f ext draws = .ok { f with Name := name } ∧
      name.length = 5 + ext.length ∧
      name.drop 5 = ext ∧
      (∀ b ∈ name.take 5, b ∈ charset ∧ (isUpper b ∨ isLower b ∨ isDigit b) ∧
        b ∉ [byteOf '0', byteOf 'O', byteOf '1', byteOf 'l', byteOf 'I']) ∧
      (∀ i, ∃ k ch, randIntn (draws i) charset.length = .ok k ∧ k < charset.length ∧
        byteAt charset k = .ok ch) := by
  refine ⟨_, setName_eq f ext draws, ?_, ?_, ?_, ?_⟩
  · simp [genName]; omega
  · simp [genName]
  · intro b hb
    have hb1 : b ∈ charset := by
      simp [genName] at hb
      rcases hb with h | h | h | h | h <;> (subst h; exact pick_mem _)
    exact ⟨hb1, charset_alnum b hb1⟩
  · intro i
    have h : draws i % charset.length < charset.length := Nat.mod_lt _ (by decide)
    have h0 : charset.length ≠ 0 := by decide
    exact ⟨draws i % charset.length, charset[draws i % charset.length], by simp [randIntn, h0],
      h, by simp [byteAt, List.getElem?_eq_getElem h]⟩

/-- C8, as the specification states it, fails: charset does not have 57
symbols, and the lowercase i, which the stated alphabet contains, is not in
it. -/
theorem charset_not_spec :
    charset.length ≠ 57 ∧ inSpecAlphabet (byteOf 'i') ∧ byteOf 'i' ∉ charset ∧
      ¬ (charset.length = 57 ∧ charset.Nodup ∧ ∀ b, b ∈ charset ↔ inSpecAlphabet b) :=
  ⟨by decide, by decide, by decide, fun h => absurd h.1 (by decide)⟩

/-- C8, amended: charset has 56 symbols, none repeated, and is exactly the set
of uppercase letters minus I and O, lowercase letters minus i and l, and
digits minus 0 and 1. -/
theorem charset_exact :
    charset.length = 56 ∧ charset.Nodup ∧ ∀ b, b ∈ charset ↔ inCodeAlphabet b :=
  ⟨by decide, by decide, charset_mem_iff⟩

/-! ## The batch DELETE -/

theorem deleteArgs_eq_intercalate (n : Nat) :
    deleteArgs n = List.intercalate (bytes ", ") (List.replicate n [byteOf '?']) := by
  have h : bytes "?" = [byteOf '?'] := by decide
  simp [deleteArgs, stringsJoin, stringsExplode, stringsRepeat, h]

theorem intercalate_replicate_succ (n : Nat) :
    List.intercalate (bytes ", ") (List.replicate (n + 1) [byteOf '?']) = placeholders (n + 1) := by
  induction n with
  | zero => decide
  | succ k ih =>
    have h : bytes "?, " = [byteOf '?'] ++ bytes ", " := by decide
    have hk : List.replicate (k + 1 + 1) [byteOf '?']
        = [byteOf '?'] :: [byteOf '?'] :: List.replicate k [byteOf '?'] := by
      simp [List.replicate_succ]
    have ih1 : List.intercalate (bytes ", ") ([byteOf '?'] :: List.replicate k [byteOf '?'])
        = placeholders (k + 1) := by
      simpa [List.replicate_succ] using ih
    rw [hk, placeholders, ← ih1, h]
    simp [List.intercalate]

theorem placeholders_length (n : Nat) : (placeholders (n + 1)).length = 3 * n + 1 := by
  induction n with
  | zero => decide
  | succ k ih =>
    have h : (bytes "?, ").length = 3 := by decide
    rw [placeholders, List.length_append, ih, h]; omega

theorem placeholders_count (n : Nat) : (placeholders n).count (byteOf '?') = n := by
  induction n using Nat.strongRecOn with
  | _ n ih =>
    match n with
    | 0 => decide
    | 1 => decide
    | k + 2 =>
      have h : (bytes "?, ").count (byteOf '?') = 1 := by decide
      rw [placeholders, List.count_append, ih (k + 1) (by omega), h]; omega

theorem deleteArgs_eq (n : Nat) : deleteArgs n = placeholders n := by
  cases n with
  | zero => decide
  | succ k => rw [deleteArgs_eq_intercalate, intercalate_replicate_succ]

/-- The text deleteExpired builds has as many parameters as there are ids. -/
theorem countPlaceholders_deleteQuery (n : Nat) : countPlaceholders (deleteQuery n) = n := by
  have h1 : (bytes "DELETE FROM files WHERE id IN (").count (byteOf '?') = 0 := by decide
  have h2 : (bytes ")").count (byteOf '?') = 0 := by decide
  simp only [countPlaceholders, deleteQuery, List.count_append, h1, h2, deleteArgs_eq,
    placeholders_count]
  omega

/-- The batch DELETE of deleteExpired, when its parameters are within the limit
of the engine, is accepted and removes the rows whose id is among the
arguments. -/
theorem runStmt_delete (rows : List File) (vals : List Int)
    (h : vals.length ≤ maxVariableNumber) :
    runStmt rows (.delete (deleteQuery vals.length) vals)
      = .ok (rows.filter (fun r => decide (r.ID ∉ vals)), 0) := by
  have h1 : ¬ maxVariableNumber < vals.length := Nat.not_lt.mpr h
  simp [runStmt, countPlaceholders_deleteQuery, h1]

/-- The batch DELETE of deleteExpired with more parameters than the engine
accepts is refused. -/
theorem runStmt_delete_over (rows : List File) (vals : List Int)
    (h : maxVariableNumber < vals.length) :
    runStmt rows (.delete (deleteQuery vals.length) vals) = .error .tooManyVariables := by
  simp [runStmt, countPlaceholders_deleteQuery, h]


/-! ## The blob directory -/

theorem fsRead_erase_self (fs : FS) (p : Bytes) : fsRead (fsErase fs p) p = none := by
  induction fs with
  | nil => rfl
  | cons e rest ih =>
    obtain ⟨q, d⟩ := e
    by_cases h : q = p
    · simpa [fsErase, List.filter_cons, h] using ih
    · simpa [fsErase, List.filter_cons, h, fsRead] using ih

theorem fsRead_erase_ne (fs : FS) (p q : Bytes) (h : q ≠ p) :
    fsRead (fsErase fs p) q = fsRead fs q := by
  induction fs with
  | nil => rfl
  | cons e rest ih =>
    obtain ⟨r, d⟩ := e
    unfold fsErase at ih ⊢
    by_cases hr : r = p
    · subst hr
      have hrq : ¬ r = q := fun hh => h hh.symm
      simpa [List.filter_cons, fsRead, hrq] using ih
    · by_cases hq : r = q
      · subst hq
        simp [List.filter_cons, hr, fsRead]
      · simpa [List.filter_cons, hr, fsRead, hq] using ih

theorem fsRead_erase_of_none (fs : FS) (p q : Bytes) (h : fsRead fs q = none) :
    fsRead (fsErase fs p) q = none := by
  by_cases hq : q = p
  · rw [hq]; exact fsRead_erase_self fs p
  · rw [fsRead_erase_ne fs p q hq]; exact h

theorem fsRead_write_self (fs : FS) (p d : Bytes) : fsRead (fsWrite fs p d) p = some d := by
  simp [fsWrite, fsRead]

/-! ## The loop of deleteExpired -/

/-- The ids the loop collects are those of the files whose removal did not
fail with an error other than not-exist. -/
theorem removeLoop_vals (c : Core) (env : SweepEnv) (files : List File) (fs : FS)
    (vals : List Int) :
    (removeLoop c env files fs vals).2
      = vals ++ (files.filter (fun f => !env.removeErr f)).map File.ID := by
  induction files generalizing fs vals with
  | nil => simp [removeLoop]
  | cons f rest ih =>
    by_cases hf : env.removeErr f = true
    · simp [removeLoop, osRemove, hf, osIsNotExist, ih]
    · by_cases hx : (fsRead fs (getFilePath c f)).isSome = true
      · simp [removeLoop, osRemove, hf, hx, ih]
      · simp [removeLoop, osRemove, hf, hx, osIsNotExist, ih]

/-- The loop never creates a file. -/
theorem removeLoop_read_none (c : Core) (env : SweepEnv) (files : List File) (fs : FS)
    (vals : List Int) (p : Bytes) (h : fsRead fs p = none) :
    fsRead (removeLoop c env files fs vals).1 p = none := by
  induction files generalizing fs vals with
  | nil => simpa [removeLoop] using h
  | cons f rest ih =>
    by_cases hf : env.removeErr f = true
    · simpa [removeLoop, osRemove, hf, osIsNotExist] using ih fs vals h
    · by_cases hx : (fsRead fs (getFilePath c f)).isSome = true
      · simpa [removeLoop, osRemove, hf, hx] using
          ih (fsErase fs (getFilePath c f)) (vals ++ [f.ID]) (fsRead_erase_of_none fs _ p h)
      · simpa [removeLoop, osRemove, hf, hx, osIsNotExist] using ih fs (vals ++ [f.ID]) h

/-- After the loop there is no blob at the path of a file whose removal did not
fail with an error other than not-exist. -/
theorem removeLoop_read_removed (c : Core) (env : SweepEnv) (files : List File) (fs : FS)
    (vals : List Int) (f : File) (hmem : f ∈ files) (hok : env.removeErr f = false) :
    fsRead (removeLoop c env files fs vals).1 (getFilePath c f) = none := by
  induction files generalizing fs vals with
  | nil => cases hmem
  | cons g rest ih =>
    rcases List.mem_cons.mp hmem with hfg | hrest
    · subst hfg
      by_cases hx : (fsRead fs (getFilePath c f)).isSome = true
      · simpa [removeLoop, osRemove, hok, hx] using
          removeLoop_read_none c env rest _ (vals ++ [f.ID]) _ (fsRead_erase_self fs _)
      · have hnone : fsRead fs (getFilePath c f) = none := by
          cases hh : fsRead fs (getFilePath c f) with
          | none => rfl
          | some d => simp [hh] at hx
        simpa [removeLoop, osRemove, hok, hx, osIsNotExist] using
          removeLoop_read_none c env rest fs (vals ++ [f.ID]) _ hnone
    · by_cases hg : env.removeErr g = true
      · simpa [removeLoop, osRemove, hg, osIsNotExist] using ih fs vals hrest
      · by_cases hx : (fsRead fs (getFilePath c g)).isSome = true
        · simpa [removeLoop, osRemove, hg, hx] using ih _ (vals ++ [g.ID]) hrest
        · simpa [removeLoop, osRemove, hg, hx, osIsNotExist] using ih fs (vals ++ [g.ID]) hrest

/-- The loop leaves alone every path that is not the path of a file it
removes. -/
theorem removeLoop_read_other (c : Core) (env : SweepEnv) (files : List File) (fs : FS)
    (vals : List Int) (p : Bytes)
    (h : ∀ f ∈ files, env.removeErr f = false → getFilePath c f ≠ p) :
    fsRead (removeLoop c env files fs vals).1 p = fsRead fs p := by
  induction files generalizing fs vals with
  | nil => simp [removeLoop]
  | cons g rest ih =>
    have hrest : ∀ f ∈ rest, env.removeErr f = false → getFilePath c f ≠ p :=
      fun f hf => h f (List.mem_cons_of_mem g hf)
    by_cases hg : env.removeErr g = true
    · simpa [removeLoop, osRemove, hg, osIsNotExist] using ih fs vals hrest
    · have hne : p ≠ getFilePath c g := fun hh =>
        h g (List.mem_cons_self g rest) (by simpa using hg) hh.symm
      by_cases hx : (fsRead fs (getFilePath c g)).isSome = true
      · have := ih (fsErase fs (getFilePath c g)) (vals ++ [g.ID]) hrest
        rw [fsRead_erase_ne fs _ p hne] at this
        simpa [removeLoop, osRemove, hg, hx] using this
      · simpa [removeLoop, osRemove, hg, hx, osIsNotExist] using ih fs (vals ++ [g.ID]) hrest

/-- When every removal fails the loop changes nothing. -/
theorem removeLoop_all_fail (c : Core) (env : SweepEnv) (files : List File) (fs : FS)
    (vals : List Int) (h : ∀ f ∈ files, env.removeErr f = true) :
    removeLoop c env files fs vals = (fs, vals) := by
  induction files generalizing fs vals with
  | nil => simp [removeLoop]
  | cons g rest ih =>
    have hg : env.removeErr g = true := h g (List.mem_cons_self g rest)
    have hrest : ∀ f ∈ rest, env.removeErr f = true := fun f hf => h f (List.mem_cons_of_mem g hf)
    simpa [removeLoop, osRemove, hg, osIsNotExist] using ih fs vals hrest

/-! ## deleteExpired -/

theorem getExpired_ok (w : World) (env : SweepEnv) (files : List File)
    (h : getExpired w env = .ok files) :
    files = w.rows.filter (fun r => decide (r.ExpiresAt < env.now)) := by
  unfold getExpired at h
  by_cases hq : env.queryErr = true
  · simp [hq] at h
  · by_cases hs : (env.scanErr && !(w.rows.filter (fun r => decide (r.ExpiresAt < env.now))).isEmpty) = true
    · simp only [hq, hs] at h
      simp at h
    · by_cases hr : env.rowsErr = true
      · simp only [hq, hs, hr] at h
        simp at h
      · simp only [hq, hs, hr] at h
        simp at h
        exact h.symm

/-- deleteExpired after a failed query: nothing changes. -/
theorem deleteExpired_of_error (c : Core) (w : World) (env : SweepEnv) (e : Err)
    (h : getExpired w env = .error e) : deleteExpired c w env = (w, 0, some e) := by
  simp [deleteExpired, deleteExpiredTrace, h]

/-- deleteExpired after a successful query, by cases on the ids collected and
on the outcome of the DELETE. -/
theorem deleteExpired_of_ok (c : Core) (w : World) (env : SweepEnv) (files : List File)
    (h : getExpired w env = .ok files) :
    deleteExpired c w env =
      if (removeLoop c env files w.fs []).2 = [] then
        ({ w with fs := (removeLoop c env files w.fs []).1 }, 0, none)
      else if env.execErr then
        ({ w with fs := (removeLoop c env files w.fs []).1 }, 0, some .exec)
      else if maxVariableNumber < (removeLoop c env files w.fs []).2.length then
        ({ w with fs := (removeLoop c env files w.fs []).1 }, 0, some .tooManyVariables)
      else
        ({ rows := w.rows.filter
            (fun r => decide (r.ID ∉ (removeLoop c env files w.fs []).2)),
           fs := (removeLoop c env files w.fs []).1 },
          (removeLoop c env files w.fs []).2.length, none) := by
  unfold deleteExpired deleteExpiredTrace
  rw [h]
  by_cases h0 : (removeLoop c env files w.fs []).2 = []
  · simp [h0]
  · by_cases hx : env.execErr = true
    · simp [h0, hx, dbExec]
    · by_cases hm : maxVariableNumber < (removeLoop c env files w.fs []).2.length
      · simp [h0, hx, hm, dbExec, runStmt_delete_over _ _ hm]
      · simp [h0, hx, hm, dbExec, runStmt_delete _ _ (Nat.not_lt.mp hm)]

/-- The statements deleteExpired sends: none after a failed query or when no id
was collected, and otherwise the one batch DELETE for the ids collected. -/
theorem deleteExpiredTrace_sent (c : Core) (w : World) (env : SweepEnv) (files : List File)
    (h : getExpired w env = .ok files) :
    (deleteExpiredTrace c w env).2 =
      if (removeLoop c env files w.fs []).2 = [] then []
      else [.delete (deleteQuery (removeLoop c env files w.fs []).2.length)
              (removeLoop c env files w.fs []).2] := by
  unfold deleteExpiredTrace
  rw [h]
  by_cases h0 : (removeLoop c env files w.fs []).2 = []
  · simp [h0]
  · simp only [List.length_eq_zero, h0, if_false]
    cases dbExec w.rows
        (.delete (deleteQuery (removeLoop c env files w.fs []).2.length)
          (removeLoop c env files w.fs []).2) env.execErr with
    | error e => rfl
    | ok r => rfl

theorem deleteExpired_rows_sublist (c : Core) (w : World) (env : SweepEnv) :
    (deleteExpired c w env).1.rows.Sublist w.rows := by
  cases h : getExpired w env with
  | error e => rw [deleteExpired_of_error c w env e h]
  | ok files =>
    rw [deleteExpired_of_ok c w env files h]
    split
    · exact List.Sublist.refl _
    · split
      · exact List.Sublist.refl _
      · split
        · exact List.Sublist.refl _
        · exact List.filter_sublist _

theorem Catalog_of_sublist {rows rows1 : List File} (h : Catalog rows)
    (hs : rows1.Sublist rows) : Catalog rows1 :=
  ⟨h.1.sublist (hs.map _), h.2.sublist (hs.map _)⟩

/-- Two rows of a catalog with the same id are the same row. -/
theorem Catalog_eq_of_ID {rows : List File} (h : Catalog rows) {a b : File}
    (ha : a ∈ rows) (hb : b ∈ rows) (hid : a.ID = b.ID) : a = b :=
  List.inj_on_of_nodup_map h.1 ha hb hid

/-- A row whose id the loop collected was selected and its removal did not fail
with an error other than not-exist. -/
theorem mem_vals (c : Core) (w : World) (env : SweepEnv) (files : List File)
    (hc : Catalog w.rows) (h : getExpired w env = .ok files) (r : File) (hr : r ∈ w.rows)
    (hid : r.ID ∈ (removeLoop c env files w.fs []).2) :
    r ∈ files ∧ env.removeErr r = false := by
  rw [removeLoop_vals] at hid
  simp only [List.nil_append, List.mem_map, List.mem_filter] at hid
  obtain ⟨f, ⟨hf, hok⟩, hfid⟩ := hid
  have hfw : f ∈ w.rows := by
    rw [getExpired_ok w env files h] at hf
    exact (List.mem_filter.mp hf).1
  have : f = r := Catalog_eq_of_ID hc hfw hr hfid
  subst this
  exact ⟨hf, by simpa using hok⟩

/-- A row that deleteExpired removes from the catalog was selected and its
removal did not fail with an error other than not-exist. -/
theorem removed_row (c : Core) (w : World) (env : SweepEnv) (hc : Catalog w.rows)
    (r : File) (hr : r ∈ w.rows) (hgone : r ∉ (deleteExpired c w env).1.rows) :
    ∃ files, getExpired w env = .ok files ∧ r ∈ files ∧ env.removeErr r = false ∧
      (deleteExpired c w env).1.fs = (removeLoop c env files w.fs []).1 := by
  cases h : getExpired w env with
  | error e =>
    rw [deleteExpired_of_error c w env e h] at hgone
    exact absurd hr hgone
  | ok files =>
    rw [deleteExpired_of_ok c w env files h] at hgone ⊢
    split at hgone
    · exact absurd hr hgone
    · split at hgone
      · exact absurd hr hgone
      · split at hgone
        · exact absurd hr hgone
        · rename_i h0 hx hm
          have hid : r.ID ∈ (removeLoop c env files w.fs []).2 := by
            by_contra hn
            exact hgone (List.mem_filter.mpr ⟨hr, by simpa using hn⟩)
          obtain ⟨hf, hok⟩ := mem_vals c w env files hc h r hr hid
          exact ⟨files, rfl, hf, hok, by simp [h0, hx, hm]⟩

/-- The blob directory after deleteExpired is the one before it or the one the
loop leaves. -/
theorem deleteExpired_fs (c : Core) (w : World) (env : SweepEnv) :
    (deleteExpired c w env).1.fs = w.fs ∨
      ∃ files, getExpired w env = .ok files ∧
        (deleteExpired c w env).1.fs = (removeLoop c env files w.fs []).1 := by
  cases h : getExpired w env with
  | error e => left; rw [deleteExpired_of_error c w env e h]
  | ok files =>
    right
    refine ⟨files, rfl, ?_⟩
    rw [deleteExpired_of_ok c w env files h]
    split
    · rfl
    · split
      · rfl
      · split <;> rfl

/-- C2: in a catalog, after deleteExpired every expired record whose blob
removal failed with an error other than not-exist is still in the catalog, and
every record the call removed from the catalog has no blob at its path. -/
theorem deleteExpired_removes_confirmed (c : Core) (w : World) (env : SweepEnv)
    (hc : Catalog w.rows) :
    (∀ r ∈ w.rows, r.ExpiresAt < env.now → env.removeErr r = true →
      r ∈ (deleteExpired c w env).1.rows) ∧
    (∀ r ∈ w.rows, r ∉ (deleteExpired c w env).1.rows →
      fsRead (deleteExpired c w env).1.fs (getFilePath c r) = none) := by
  constructor
  · intro r hr _ hfail
    by_contra hgone
    obtain ⟨files, _, _, hok, _⟩ := removed_row c w env hc r hr hgone
    rw [hfail] at hok
    cases hok
  · intro r hr hgone
    obtain ⟨files, _, hf, hok, hfs⟩ := removed_row c w env hc r hr hgone
    rw [hfs]
    exact removeLoop_read_removed c env files w.fs [] r hf hok

/-! ## Put -/

/-- The record Put builds before the INSERT assigns its id. -/
theorem Put_setName (form : UploadForm) (env : PutEnv) :
    setName { ID := 0, Name := [], CreatedAt := env.now, ExpiresAt := env.now + form.Duration }
        form.Ext env.draws
      = .ok { ID := 0, Name := genName form.Ext env.draws, CreatedAt := env.now,
              ExpiresAt := env.now + form.Duration } := by
  rw [setName_eq]

/-- A Put that returns a record: no call failed, the name was new, and the
state afterwards has the new row and the blob. -/
theorem Put_of_ok (c : Core) (w : World) (form : UploadForm) (env : PutEnv) (f : File)
    (h : (Put c w form env).2 = .ok f) :
    f = { ID := nextRowid w.rows, Name := genName form.Ext env.draws, CreatedAt := env.now,
          ExpiresAt := env.now + form.Duration } ∧
    f.Name ∉ w.rows.map File.Name ∧
    (Put c w form env).1 =
      { rows := w.rows ++ [f],
        fs := fsWrite (fsWrite w.fs (getFilePath c f) []) (getFilePath c f) form.File } := by
  unfold Put at h ⊢
  simp only [Put_setName] at h ⊢
  by_cases h1 : env.beginErr = true
  · simp [dbBegin, h1] at h
  by_cases h2 : env.execErr = true
  · simp [dbBegin, h1, dbExec, h2] at h
  by_cases h3 : genName form.Ext env.draws ∈ w.rows.map File.Name
  · simp [dbBegin, h1, dbExec, h2, runStmt, h3] at h
  by_cases h4 : env.lastInsertIdErr = true
  · simp [dbBegin, h1, dbExec, h2, runStmt, h3, lastInsertId, h4] at h
  by_cases h5 : env.createErr = true
  · simp [dbBegin, h1, dbExec, h2, runStmt, h3, lastInsertId, h4, osCreate, h5] at h
  cases h6 : env.copyErr with
  | some k => simp [dbBegin, h1, dbExec, h2, runStmt, h3, lastInsertId, h4, osCreate, h5, ioCopy, h6] at h
  | none =>
    by_cases h7 : env.commitErr = true
    · simp [dbBegin, h1, dbExec, h2, runStmt, h3, lastInsertId, h4, osCreate, h5, ioCopy, h6,
        txCommit, h7] at h
    · simp [dbBegin, h1, dbExec, h2, runStmt, h3, lastInsertId, h4, osCreate, h5, ioCopy, h6,
        txCommit, h7, applyWrites, txRollback, fsRead_write_self] at h ⊢
      subst h
      simp [h3, fsRead_write_self]
      simpa using h3

/-- C5: if Put returns a record without error, then afterwards the blob
directory maps the path getFilePath derives from the record to the content of
the input stream, and the catalog has exactly one row with the name of the
record, which is the record itself (same id, created_at and expires_at). -/
theorem Put_success (c : Core) (w : World) (form : UploadForm) (env : PutEnv) (f : File)
    (h : (Put c w form env).2 = .ok f) :
    fsRead (Put c w form env).1.fs (getFilePath c f) = some form.File ∧
    (Put c w form env).1.rows.filter (fun r => decide (r.Name = f.Name)) = [f] := by
  obtain ⟨_, hnew, hw⟩ := Put_of_ok c w form env f h
  rw [hw]
  refine ⟨fsRead_write_self _ _ _, ?_⟩
  have hnone : w.rows.filter (fun r => decide (r.Name = f.Name)) = [] := by
    rw [List.filter_eq_nil_iff]
    intro r hr hname
    exact hnew (List.mem_map.mpr ⟨r, hr, by simpa using hname⟩)
  simp [List.filter_append, hnone]

/-- A name of a catalog belongs to exactly one of its rows. -/
theorem filter_name_length (rows : List File) (n : Bytes)
    (hnd : (rows.map File.Name).Nodup) (hn : n ∈ rows.map File.Name) :
    (rows.filter (fun r => decide (r.Name = n))).length = 1 := by
  induction rows with
  | nil => simp at hn
  | cons r rest ih =>
    rw [List.map_cons, List.nodup_cons] at hnd
    by_cases h : r.Name = n
    · have hnone : rest.filter (fun r => decide (r.Name = n)) = [] := by
        rw [List.filter_eq_nil_iff]
        intro x hx hname
        exact hnd.1 (List.mem_map.mpr ⟨x, hx, by rw [h]; simpa using hname⟩)
      simp [List.filter_cons, h, hnone]
    · have hrest : n ∈ rest.map File.Name := by
        rcases List.mem_cons.mp hn with h1 | h1
        · exact absurd h1.symm h
        · exact h1
      simpa [List.filter_cons, h] using ih hnd.2 hrest

/-- C4: in a catalog that already holds a row named n, a Put whose generated
name is n returns an error, which is the violation of the unique constraint
unless Begin or Exec failed for another reason; the state is unchanged, so the
catalog still has exactly one row named n and every blob keeps its content. -/
theorem Put_collision (c : Core) (w : World) (form : UploadForm) (env : PutEnv)
    (f0 f1 : File) (hc : Catalog w.rows)
    (hgen : setName f0 form.Ext env.draws = .ok f1)
    (hn : f1.Name ∈ w.rows.map File.Name) :
    (∃ e, (Put c w form env).2 = .error e ∧ e.isPanic = false ∧
      (env.beginErr = false → env.execErr = false → e = .uniqueName)) ∧
    (Put c w form env).1 = w ∧
    (w.rows.filter (fun r => decide (r.Name = f1.Name))).length = 1 := by
  have hname : f1.Name = genName form.Ext env.draws := by
    rw [setName_eq] at hgen
    injection hgen with hgen
    rw [← hgen]
  rw [hname] at hn
  refine ⟨?_, ?_, ?_⟩
  · unfold Put
    simp only [Put_setName]
    by_cases h1 : env.beginErr = true
    · exact ⟨.begin, by simp [dbBegin, h1], rfl, by simp [h1]⟩
    · by_cases h2 : env.execErr = true
      · exact ⟨.exec, by simp [dbBegin, h1, dbExec, h2], rfl, by simp [h2]⟩
      · exact ⟨.uniqueName, by simp [dbBegin, h1, dbExec, h2, runStmt, hn], rfl, by simp⟩
  · unfold Put
    simp only [Put_setName]
    by_cases h1 : env.beginErr = true
    · simp [dbBegin, h1]
    · by_cases h2 : env.execErr = true
      · simp [dbBegin, h1, dbExec, h2, txRollback]
      · simp [dbBegin, h1, dbExec, h2, runStmt, hn, txRollback]
  · rw [hname]
    exact filter_name_length w.rows _ hc.2 hn

/-! ## Sweeps -/

/-- One call of deleteExpired at a time not later than the expiry of a record
keeps the record, and keeps its blob when no other row has the same path. -/
theorem deleteExpired_keeps (c : Core) (w : World) (env : SweepEnv) (r : File)
    (hc : Catalog w.rows) (hr : r ∈ w.rows) (ht : env.now ≤ r.ExpiresAt) :
    r ∈ (deleteExpired c w env).1.rows ∧
    ((∀ r1 ∈ w.rows, r1 ≠ r → getFilePath c r1 ≠ getFilePath c r) →
      fsRead (deleteExpired c w env).1.fs (getFilePath c r) = fsRead w.fs (getFilePath c r)) := by
  have hnot : ∀ files, getExpired w env = .ok files → r ∉ files := by
    intro files h hf
    rw [getExpired_ok w env files h] at hf
    have := (List.mem_filter.mp hf).2
    simp at this
    exact (not_lt.mpr ht) this
  constructor
  · by_contra hgone
    obtain ⟨files, h, hf, _, _⟩ := removed_row c w env hc r hr hgone
    exact hnot files h hf
  · intro hpath
    rcases deleteExpired_fs c w env with h | ⟨files, h, hfs⟩
    · rw [h]
    · rw [hfs]
      apply removeLoop_read_other
      intro f hf _
      have hfw : f ∈ w.rows := by
        rw [getExpired_ok w env files h] at hf
        exact (List.mem_filter.mp hf).1
      have hne : f ≠ r := fun hh => hnot files h (hh ▸ hf)
      exact hpath f hfw hne

/-- C3, amended: in a catalog, a record whose expiry is not earlier than the
time of any of a sequence of consecutive calls of deleteExpired is still in the
catalog after all of them; its blob is still present with unchanged content
provided no other row of the catalog has the same blob path. -/
theorem sweeps_keep_unexpired (c : Core) (w : World) (envs : List SweepEnv) (r : File)
    (hc : Catalog w.rows) (hr : r ∈ w.rows) (ht : ∀ env ∈ envs, env.now ≤ r.ExpiresAt) :
    r ∈ (sweeps c w envs).rows ∧
    ((∀ r1 ∈ w.rows, r1 ≠ r → getFilePath c r1 ≠ getFilePath c r) →
      fsRead (sweeps c w envs).fs (getFilePath c r) = fsRead w.fs (getFilePath c r)) := by
  induction envs generalizing w with
  | nil => exact ⟨hr, fun _ => rfl⟩
  | cons env rest ih =>
    have hstep := deleteExpired_keeps c w env r hc hr (ht env (List.mem_cons_self env rest))
    have hsub := deleteExpired_rows_sublist c w env
    have hnext := ih (deleteExpired c w env).1 (Catalog_of_sublist hc hsub) hstep.1
      (fun e he => ht e (List.mem_cons_of_mem env he))
    refine ⟨hnext.1, fun hpath => ?_⟩
    have h2 := hnext.2 (fun r1 hr1 hne => hpath r1 (hsub.subset hr1) hne)
    simp only [sweeps]
    rw [h2, hstep.2 hpath]

/-- C6, amended: if a call of deleteExpired returns no error, and every blob
removal that failed in it with an error other than not-exist fails again, then
a second call at the same time returns 0 and leaves the catalog and the blob
directory as the first call left them; so it is when no removal failed. -/
theorem deleteExpired_twice (c : Core) (w : World) (env1 env2 : SweepEnv)
    (hnow : env2.now = env1.now)
    (hok : (deleteExpired c w env1).2.2 = none)
    (hfail : ∀ r ∈ w.rows, r.ExpiresAt < env1.now → env1.removeErr r = true →
      env2.removeErr r = true) :
    (deleteExpired c (deleteExpired c w env1).1 env2).2.1 = 0 ∧
    (deleteExpired c (deleteExpired c w env1).1 env2).1 = (deleteExpired c w env1).1 := by
  -- every expired row the first call leaves is one whose removal failed in it
  have hleft : ∀ r ∈ (deleteExpired c w env1).1.rows, r.ExpiresAt < env1.now →
      env1.removeErr r = true := by
    intro r hr1 hexp
    cases h : getExpired w env1 with
    | error e =>
      rw [deleteExpired_of_error c w env1 e h] at hok
      simp at hok
    | ok files =>
      have hfiles := getExpired_ok w env1 files h
      rw [deleteExpired_of_ok c w env1 files h] at hok hr1
      have hvals := removeLoop_vals c env1 files w.fs []
      by_cases h0 : (removeLoop c env1 files w.fs []).2 = []
      · simp only [h0, if_true] at hr1
        rw [h0] at hvals
        have hrf : r ∈ files := by
          rw [hfiles]; exact List.mem_filter.mpr ⟨hr1, by simpa using hexp⟩
        by_contra hne
        have : r.ID ∈ ([] : List Int) := by
          rw [hvals]
          simp only [List.nil_append, List.mem_map, List.mem_filter]
          exact ⟨r, ⟨hrf, by simpa using hne⟩, rfl⟩
        simp at this
      · by_cases hx : env1.execErr = true
        · simp [h0, hx] at hok
        · by_cases hm : maxVariableNumber < (removeLoop c env1 files w.fs []).2.length
          · simp [h0, hx, hm] at hok
          simp only [h0, hx, hm, if_false] at hr1
          obtain ⟨hrw, hnid⟩ := List.mem_filter.mp hr1
          have hrf : r ∈ files := by
            rw [hfiles]; exact List.mem_filter.mpr ⟨hrw, by simpa using hexp⟩
          by_contra hne
          have : r.ID ∈ (removeLoop c env1 files w.fs []).2 := by
            rw [hvals]
            simp only [List.nil_append, List.mem_map, List.mem_filter]
            exact ⟨r, ⟨hrf, by simpa using hne⟩, rfl⟩
          simp at hnid
          exact hnid this
  have hsub := deleteExpired_rows_sublist c w env1
  cases h2 : getExpired (deleteExpired c w env1).1 env2 with
  | error e => rw [deleteExpired_of_error c _ env2 e h2]; exact ⟨rfl, rfl⟩
  | ok files2 =>
    have hfiles2 := getExpired_ok _ env2 files2 h2
    have hall : ∀ f ∈ files2, env2.removeErr f = true := by
      intro f hf
      rw [hfiles2] at hf
      obtain ⟨hf1, hexp⟩ := List.mem_filter.mp hf
      have hexp1 : f.ExpiresAt < env1.now := by rw [← hnow]; simpa using hexp
      exact hfail f (hsub.subset hf1) hexp1 (hleft f hf1 hexp1)
    rw [deleteExpired_of_ok c _ env2 files2 h2, removeLoop_all_fail c env2 files2 _ [] hall]
    simp

/-! ## The catalog constraints are invariants -/

theorem Catalog_nil : Catalog [] := by decide

theorem nextRowid_fresh (rows : List File) : nextRowid rows ∉ rows.map File.ID := by
  intro hmem
  unfold nextRowid at hmem
  cases hm : (rows.map File.ID).max? with
  | none =>
    rw [List.max?_eq_none_iff] at hm
    rw [hm] at hmem
    cases hmem
  | some m =>
    rw [hm] at hmem
    have hle := (List.max?_le_iff (fun a b c => max_le_iff) hm (x := m)).mp (le_refl m)
    have hlt : m + 1 ≤ m := hle _ hmem
    omega

/-- The table after Put: unchanged, or extended by a row with a new name and a
new id. -/
theorem Put_rows (c : Core) (w : World) (form : UploadForm) (env : PutEnv) :
    (Put c w form env).1.rows = w.rows ∨
    (genName form.Ext env.draws ∉ w.rows.map File.Name ∧
      (Put c w form env).1.rows = w.rows ++
        [{ ID := nextRowid w.rows, Name := genName form.Ext env.draws, CreatedAt := env.now,
           ExpiresAt := env.now + form.Duration }]) := by
  unfold Put
  simp only [Put_setName]
  by_cases h1 : env.beginErr = true
  · left; simp [dbBegin, h1]
  by_cases h2 : env.execErr = true
  · left; simp [dbBegin, h1, dbExec, h2, txRollback]
  by_cases h3 : genName form.Ext env.draws ∈ w.rows.map File.Name
  · left; simp [dbBegin, h1, dbExec, h2, runStmt, h3, txRollback]
  right
  refine ⟨h3, ?_⟩
  by_cases h4 : env.lastInsertIdErr = true
  · simp [dbBegin, h1, dbExec, h2, runStmt, h3, lastInsertId, h4, txRollback]
  by_cases h5 : env.createErr = true
  · simp [dbBegin, h1, dbExec, h2, runStmt, h3, lastInsertId, h4, osCreate, h5, txRollback]
  cases h6 : env.copyErr with
  | some k =>
    simp [dbBegin, h1, dbExec, h2, runStmt, h3, lastInsertId, h4, osCreate, h5, ioCopy, h6,
      txRollback]
  | none =>
    by_cases h7 : env.commitErr = true
    · simp [dbBegin, h1, dbExec, h2, runStmt, h3, lastInsertId, h4, osCreate, h5, ioCopy, h6,
        txCommit, h7, txRollback]
    · simp [dbBegin, h1, dbExec, h2, runStmt, h3, lastInsertId, h4, osCreate, h5, ioCopy, h6,
        txCommit, h7, applyWrites, txRollback]

/-- Put keeps ids and names distinct. -/
theorem Put_Catalog (c : Core) (w : World) (form : UploadForm) (env : PutEnv)
    (hc : Catalog w.rows) : Catalog (Put c w form env).1.rows := by
  rcases Put_rows c w form env with h | ⟨hnew, h⟩
  · rw [h]; exact hc
  · rw [h]
    unfold Catalog
    simp only [List.map_append, List.map_cons, List.map_nil]
    constructor
    · rw [List.nodup_append]
      refine ⟨hc.1, List.nodup_singleton _, ?_⟩
      intro a ha hb
      rw [List.mem_singleton] at hb
      exact nextRowid_fresh w.rows (hb ▸ ha)
    · rw [List.nodup_append]
      refine ⟨hc.2, List.nodup_singleton _, ?_⟩
      intro a ha hb
      rw [List.mem_singleton] at hb
      exact hnew (hb ▸ ha)

/-- The method deleteExpired keeps ids and names distinct. -/
theorem deleteExpired_Catalog (c : Core) (w : World) (env : SweepEnv) (hc : Catalog w.rows) :
    Catalog (deleteExpired c w env).1.rows :=
  Catalog_of_sublist hc (deleteExpired_rows_sublist c w env)

/-! ## Close -/

/-- A Core from NewCore has a nil quit channel and an open connection. -/
theorem NewCore_quit (config : Config) (env : NewCoreEnv) (core : Core)
    (h : NewCore config env = .ok core) : core.quit = none ∧ core.db.closed = false := by
  unfold NewCore at h
  split at h
  · cases h
  · split at h
    · cases h
    · split at h
      · cases h
      · split at h
        · cases h
        · split at h
          · cases h
          · injection h with h
            subst h
            exact ⟨rfl, rfl⟩

/-- Close on a Core from NewCore panics at the close of the nil channel, before
the connection is closed. -/
theorem Close_of_NewCore (config : Config) (env : NewCoreEnv) (core : Core) (closeErr : Bool)
    (h : NewCore config env = .ok core) :
    Close core closeErr = (core, .error .panicCloseNil) := by
  have hq := (NewCore_quit config env core h).1
  simp [Close, hq, chanClose]

/-! ## Paths of plain names -/

theorem splitSep_ne_nil (p : Bytes) : splitSep p ≠ [] := by
  cases p with
  | nil => simp [splitSep]
  | cons b rest =>
    unfold splitSep
    split
    · simp
    · split <;> simp

theorem splitSep_plain (n : Bytes) (h : sep ∉ n) : splitSep n = [n] := by
  induction n with
  | nil => rfl
  | cons b rest ih =>
    have hb : b ≠ sep := fun hh => h (hh ▸ List.mem_cons_self b rest)
    have hrest : sep ∉ rest := fun hh => h (List.mem_cons_of_mem b hh)
    simp [splitSep, hb, ih hrest]

theorem splitSep_append (a b : Bytes) : splitSep (a ++ sep :: b) = splitSep a ++ splitSep b := by
  induction a with
  | nil => simp [splitSep]
  | cons x rest ih =>
    by_cases hx : x = sep
    · simp [splitSep, hx, ih]
    · cases hs : splitSep rest with
      | nil => exact absurd hs (splitSep_ne_nil rest)
      | cons h t => simp [splitSep, hx, ih, hs]

theorem cleanStep_plain (rooted : Bool) (out : List Bytes) (n : Bytes) (h : plainName n) :
    cleanStep rooted out n = n :: out := by
  obtain ⟨_, h1, h2, h3⟩ := h
  simp [cleanStep, h1, h2, h3]

theorem intercalate_snoc (s : Bytes) (l : List Bytes) (n : Bytes) (hl : l ≠ []) :
    List.intercalate s (l ++ [n]) = List.intercalate s l ++ s ++ n := by
  induction l with
  | nil => exact absurd rfl hl
  | cons x rest ih =>
    cases rest with
    | nil => simp [List.intercalate]
    | cons y t =>
      have := ih (by simp)
      simp only [List.intercalate, List.cons_append, List.intersperse_cons₂, List.flatten_cons] at this ⊢
      rw [this]
      simp

/-- The path of a plain name is the name behind a text that depends on the
directory alone. -/
theorem filepathJoin_plain (a : Bytes) : ∃ base : Bytes, ∀ n, plainName n →
    filepathJoin a n = base ++ n := by
  by_cases ha : a = []
  · refine ⟨[], fun n hn => ?_⟩
    obtain ⟨h0, h1, _, _⟩ := id hn
    have hhead : n.head? ≠ some sep := by
      cases n with
      | nil => simp
      | cons b rest =>
        intro hh
        simp at hh
        exact h0 (hh ▸ List.mem_cons_self b rest)
    simp [filepathJoin, ha, h1, filepathClean, hhead, splitSep_plain n h0, cleanStep_plain _ _ n hn,
      List.intercalate]
  · by_cases hroot : a.head? = some sep
    · by_cases hout : (splitSep a).foldl (cleanStep true) [] = []
      · refine ⟨[sep], fun n hn => ?_⟩
        have hhead : (a ++ sep :: n).head? = some sep := by
          rw [List.head?_append_of_ne_nil _ ha]; exact hroot
        simp [filepathJoin, ha, filepathClean, hhead, splitSep_append, splitSep_plain n hn.1,
          List.foldl_append, hout, cleanStep_plain _ _ n hn, List.intercalate]
      · refine ⟨sep :: (List.intercalate [sep] ((splitSep a).foldl (cleanStep true) []).reverse
          ++ [sep]), fun n hn => ?_⟩
        have hhead : (a ++ sep :: n).head? = some sep := by
          rw [List.head?_append_of_ne_nil _ ha]; exact hroot
        have hrev : ((splitSep a).foldl (cleanStep true) []).reverse ≠ [] := by simpa using hout
        simp [filepathJoin, ha, filepathClean, hhead, splitSep_append, splitSep_plain n hn.1,
          List.foldl_append, cleanStep_plain _ _ n hn, intercalate_snoc _ _ _ hrev]
    · by_cases hout : (splitSep a).foldl (cleanStep false) [] = []
      · refine ⟨[], fun n hn => ?_⟩
        have hhead : (a ++ sep :: n).head? ≠ some sep := by
          rw [List.head?_append_of_ne_nil _ ha]; exact hroot
        simp [filepathJoin, ha, filepathClean, hhead, splitSep_append, splitSep_plain n hn.1,
          List.foldl_append, hroot, hout, cleanStep_plain _ _ n hn, List.intercalate, hn.2.1]
      · refine ⟨List.intercalate [sep] ((splitSep a).foldl (cleanStep false) []).reverse
          ++ [sep], fun n hn => ?_⟩
        have hhead : (a ++ sep :: n).head? ≠ some sep := by
          rw [List.head?_append_of_ne_nil _ ha]; exact hroot
        have hrev : ((splitSep a).foldl (cleanStep false) []).reverse ≠ [] := by simpa using hout
        simp [filepathJoin, ha, filepathClean, hhead, splitSep_append, splitSep_plain n hn.1,
          List.foldl_append, hroot, cleanStep_plain _ _ n hn, intercalate_snoc _ _ _ hrev]

/-- Plain names with the same path are the same name. -/
theorem getFilePath_plain_inj (c : Core) (f g : File) (hf : plainName f.Name)
    (hg : plainName g.Name) (h : getFilePath c f = getFilePath c g) : f.Name = g.Name := by
  obtain ⟨base, hb⟩ := filepathJoin_plain c.Config.UploadDir
  unfold getFilePath at h
  rw [hb _ hf, hb _ hg] at h
  exact List.append_cancel_left h

/-- In a catalog of plain names no two rows share a blob path. -/
theorem plain_paths_distinct (c : Core) (rows : List File) (hc : Catalog rows)
    (hp : ∀ r ∈ rows, plainName r.Name) (r : File) (hr : r ∈ rows) :
    ∀ r1 ∈ rows, r1 ≠ r → getFilePath c r1 ≠ getFilePath c r := by
  intro r1 hr1 hne hpath
  have hname := getFilePath_plain_inj c r1 r (hp r1 hr1) (hp r hr) hpath
  exact hne (List.inj_on_of_nodup_map hc.2 hr1 hr hname)

/-- A generated name is plain when the extension has no separator, as is every
extension filepath.Ext returns. -/
theorem genName_plain (ext : Bytes) (draws : Nat → Nat) (h : sep ∉ ext) :
    plainName (genName ext draws) := by
  have hsep : ∀ raw, pick raw ≠ sep := by
    intro raw hh
    have := pick_mem raw
    rw [hh] at this
    exact absurd this (by decide)
  refine ⟨?_, ?_, ?_, ?_⟩
  · simp only [genName, List.mem_append, List.mem_cons, List.mem_singleton, List.not_mem_nil,
      or_false, not_or]
    exact ⟨⟨fun hh => hsep _ hh.symm, fun hh => hsep _ hh.symm, fun hh => hsep _ hh.symm,
      fun hh => hsep _ hh.symm, fun hh => hsep _ hh.symm⟩, h⟩
  · simp [genName]
  · simp [genName]
  · simp [genName]

/-! ## Reachable states -/

/-- Every reachable state satisfies the constraints of the table. -/
theorem Reachable_Catalog (c : Core) (w : World) (h : Reachable c w) : Catalog w.rows := by
  induction h with
  | start fs => exact Catalog_nil
  | put form env _ ih => exact Put_Catalog c _ form env ih
  | sweep env _ ih => exact deleteExpired_Catalog c _ env ih

/-! ## The claims at concrete inputs -/

/-- C1: the code breaks the claim.  On the empty store, a Put whose os.Create
fails returns the error and leaves the row (1, AAAAA.txt, 0, 10) in the
catalog with no blob at its path; a Put whose io.Copy fails after two bytes
returns the error and leaves the row with a truncated blob.  The INSERT runs
through db.Exec, outside the transaction that Put begins and rolls back. -/
theorem Put_blob_failure_keeps_row :
    Put exCore emptyWorld exForm { putEnv 0 0 with createErr := true }
      = ({ rows := [rowA], fs := [] }, .error .create) ∧
    fsRead (Put exCore emptyWorld exForm { putEnv 0 0 with createErr := true }).1.fs
      (getFilePath exCore rowA) = none ∧
    Put exCore emptyWorld exForm { putEnv 0 0 with copyErr := some 2 }
      = ({ rows := [rowA], fs := [(bytes "uploads/AAAAA.txt", bytes "he")] }, .error .copy) := by
  decide

/-- C9: the code breaks the claim.  For every configuration, the Core that a
successful NewCore returns has a nil quit channel, so Close panics in
close(c.quit): the Core is left as it was, the receive in Run can still not
fire, and the connection is not closed. -/
theorem Close_panics (config : Config) (closeErr : Bool) :
    ∃ core, NewCore config noFaults = .ok core ∧
      Close core closeErr = (core, .error .panicCloseNil) ∧
      Err.isPanic .panicCloseNil = true ∧
      quitReady (Close core closeErr).1.quit = false ∧
      (Close core closeErr).1.db.closed = false := by
  refine ⟨{ Config := config, db := { closed := false }, quit := none }, rfl, rfl, rfl, rfl, rfl⟩

/-- C10: for every n ≥ 1 the parameter list deleteExpired builds is the string
of n question marks separated by a comma and a blank, of length 3n - 2 with
exactly n question marks, and the text built around it is the DELETE with that
list between its brackets, so it has n parameters.  A call of deleteExpired
that collects n ≥ 1 ids sends through db.Exec exactly one statement, that
DELETE for n with the n ids as its arguments; the call is never refused for a
mismatch between parameters and arguments, and when Exec does not fail for
another reason and n is within the limit of the engine it removes the rows
with those ids and returns n, while beyond that limit the engine refuses the
statement and the call returns 0 with the error.  A call that collects no id
sends no statement and returns 0 without error, whatever the outcome of an
Exec would be. -/
theorem deleteArgs_shape :
    (∀ n, 1 ≤ n →
      deleteArgs n = placeholders n ∧
      (deleteArgs n).length = 3 * n - 2 ∧
      (deleteArgs n).count (byteOf '?') = n ∧
      deleteQuery n = batchDelete n ∧
      countPlaceholders (deleteQuery n) = n) ∧
    (∀ (c : Core) (w : World) (env : SweepEnv) (files : List File),
      getExpired w env = .ok files → 1 ≤ (removeLoop c env files w.fs []).2.length →
        (deleteExpiredTrace c w env).2 =
          [.delete (batchDelete (removeLoop c env files w.fs []).2.length)
            (removeLoop c env files w.fs []).2] ∧
        countPlaceholders (batchDelete (removeLoop c env files w.fs []).2.length)
          = (removeLoop c env files w.fs []).2.length ∧
        (deleteExpired c w env).2.2 ≠ some .bindArgs ∧
        (env.execErr = false →
          (removeLoop c env files w.fs []).2.length ≤ maxVariableNumber →
          deleteExpired c w env =
            ({ rows := w.rows.filter
                (fun r => decide (r.ID ∉ (removeLoop c env files w.fs []).2)),
               fs := (removeLoop c env files w.fs []).1 },
              (removeLoop c env files w.fs []).2.length, none)) ∧
        (env.execErr = false →
          maxVariableNumber < (removeLoop c env files w.fs []).2.length →
          deleteExpired c w env =
            ({ w with fs := (removeLoop c env files w.fs []).1 }, 0,
              some .tooManyVariables))) ∧
    (∀ (c : Core) (w : World) (env : SweepEnv) (files : List File),
      getExpired w env = .ok files → (removeLoop c env files w.fs []).2.length = 0 →
        (deleteExpiredTrace c w env).2 = [] ∧
        deleteExpired c w env = ({ w with fs := (removeLoop c env files w.fs []).1 }, 0, none)) := by
  have hq : ∀ n, deleteQuery n = batchDelete n := fun n => by
    simp only [deleteQuery, batchDelete, deleteArgs_eq]
  refine ⟨?_, ?_, ?_⟩
  · intro n hn
    obtain ⟨k, rfl⟩ : ∃ k, n = k + 1 := ⟨n - 1, by omega⟩
    refine ⟨deleteArgs_eq _, ?_, ?_, hq _, countPlaceholders_deleteQuery _⟩
    · rw [deleteArgs_eq, placeholders_length]; omega
    · rw [deleteArgs_eq, placeholders_count]
  · intro c w env files h h1
    have h0 : (removeLoop c env files w.fs []).2 ≠ [] := by
      intro hh
      rw [hh] at h1
      simp at h1
    refine ⟨?_, ?_, ?_, ?_, ?_⟩
    · rw [deleteExpiredTrace_sent c w env files h, if_neg h0, hq]
    · rw [← hq]; exact countPlaceholders_deleteQuery _
    · rw [deleteExpired_of_ok c w env files h, if_neg h0]
      split
      · simp
      · split <;> simp
    · intro hx hm
      rw [deleteExpired_of_ok c w env files h, if_neg h0]
      simp [hx, Nat.not_lt.mpr hm]
    · intro hx hm
      rw [deleteExpired_of_ok c w env files h, if_neg h0]
      simp [hx, hm]
  · intro c w env files h h0
    have hnil : (removeLoop c env files w.fs []).2 = [] := List.length_eq_zero.mp h0
    constructor
    · rw [deleteExpiredTrace_sent c w env files h, if_pos hnil]
    · rw [deleteExpired_of_ok c w env files h, if_pos hnil]

theorem deleteArgs_shape_witness :
    (1 ≤ 3 ∧ deleteArgs 3 = bytes "?, ?, ?" ∧ (deleteArgs 3).length = 3 * 3 - 2 ∧
      (deleteArgs 3).count (byteOf '?') = 3 ∧
      deleteQuery 3 = bytes "DELETE FROM files WHERE id IN (?, ?, ?)") ∧
    (getExpired twoUploads (sweepEnv 200 false) = .ok [rowA, rowB] ∧
      (removeLoop exCore (sweepEnv 200 false) [rowA, rowB] twoUploads.fs []).2 = [1, 2] ∧
      (deleteExpiredTrace exCore twoUploads (sweepEnv 200 false)).2
        = [.delete (bytes "DELETE FROM files WHERE id IN (?, ?)") [1, 2]] ∧
      deleteExpired exCore twoUploads (sweepEnv 200 false) = (emptyWorld, 2, none)) ∧
    (getExpired oneUpload { sweepEnv 50 true with execErr := true } = .ok [rowA] ∧
      (removeLoop exCore { sweepEnv 50 true with execErr := true } [rowA] oneUpload.fs []).2.length = 0 ∧
      (deleteExpiredTrace exCore oneUpload { sweepEnv 50 true with execErr := true }).2 = [] ∧
      deleteExpired exCore oneUpload { sweepEnv 50 true with execErr := true }
        = (oneUpload, 0, none)) := by
  have h1 := deleteArgs_shape.1 3 (by decide)
  have h2 := deleteArgs_shape.2.1 exCore twoUploads (sweepEnv 200 false) [rowA, rowB]
    (by decide) (by decide)
  have h3 := deleteArgs_shape.2.2 exCore oneUpload { sweepEnv 50 true with execErr := true }
    [rowA] (by decide) (by decide)
  have hv : (removeLoop exCore (sweepEnv 200 false) [rowA, rowB] twoUploads.fs []).2 = [1, 2] := by
    decide
  refine ⟨⟨by decide, h1.1, h1.2.1, h1.2.2.1, ?_⟩, ⟨by decide, hv, ?_, ?_⟩,
    ⟨by decide, by decide, h3.1, h3.2⟩⟩
  · rw [h1.2.2.2.1]; decide
  · rw [h2.1, hv]; decide
  · rw [h2.2.2.2.1 (by decide) (by decide)]; decide

theorem deleteExpired_removes_confirmed_witness :
    Catalog twoUploads.rows ∧
    ((∀ r ∈ twoUploads.rows, r.ExpiresAt < (sweepEnv 50 false).now →
        (sweepEnv 50 false).removeErr r = true →
        r ∈ (deleteExpired exCore twoUploads (sweepEnv 50 false)).1.rows) ∧
      (∀ r ∈ twoUploads.rows, r ∉ (deleteExpired exCore twoUploads (sweepEnv 50 false)).1.rows →
        fsRead (deleteExpired exCore twoUploads (sweepEnv 50 false)).1.fs (getFilePath exCore r)
          = none)) :=
  ⟨by decide, deleteExpired_removes_confirmed exCore twoUploads (sweepEnv 50 false) (by decide)⟩

/-- C3, as stated, fails: in aliasedUploads the unexpired row (2, BBBBB, 0, 100)
has its blob, and one deleteExpired at time 50 removes that blob, because the
expired row AAAAA/../BBBBB resolves to the same path. -/
theorem sweep_removes_unexpired_blob :
    Catalog aliasedUploads.rows ∧ rowPlain ∈ aliasedUploads.rows ∧
    (sweepEnv 50 false).now ≤ rowPlain.ExpiresAt ∧
    fsRead aliasedUploads.fs (getFilePath exCore rowPlain) = some (bytes "hello") ∧
    fsRead (sweeps exCore aliasedUploads [sweepEnv 50 false]).fs (getFilePath exCore rowPlain)
      = none := by
  decide

theorem sweeps_keep_unexpired_witness :
    (Catalog twoUploads.rows ∧ rowB ∈ twoUploads.rows ∧
      (∀ env ∈ [sweepEnv 50 false, sweepEnv 100 false], env.now ≤ rowB.ExpiresAt) ∧
      (∀ r1 ∈ twoUploads.rows, r1 ≠ rowB → getFilePath exCore r1 ≠ getFilePath exCore rowB)) ∧
    rowB ∈ (sweeps exCore twoUploads [sweepEnv 50 false, sweepEnv 100 false]).rows ∧
    fsRead (sweeps exCore twoUploads [sweepEnv 50 false, sweepEnv 100 false]).fs
        (getFilePath exCore rowB)
      = fsRead twoUploads.fs (getFilePath exCore rowB) := by
  have h := sweeps_keep_unexpired exCore twoUploads [sweepEnv 50 false, sweepEnv 100 false] rowB
    (by decide) (by decide) (by decide)
  exact ⟨⟨by decide, by decide, by decide, by decide⟩, h.1, h.2 (by decide)⟩

/-- C6, as stated, fails: on oneUpload a deleteExpired at time 50 whose
os.Remove fails returns 0 without error and keeps the row; a second call at the
same time whose os.Remove succeeds returns 1 and removes the row and the
blob. -/
theorem second_sweep_removes :
    (sweepEnv 50 false).now = (sweepEnv 50 true).now ∧
    (deleteExpired exCore oneUpload (sweepEnv 50 true)).2 = (0, none) ∧
    (deleteExpired exCore (deleteExpired exCore oneUpload (sweepEnv 50 true)).1
      (sweepEnv 50 false)).2.1 = 1 ∧
    (deleteExpired exCore (deleteExpired exCore oneUpload (sweepEnv 50 true)).1
      (sweepEnv 50 false)).1 ≠ (deleteExpired exCore oneUpload (sweepEnv 50 true)).1 := by
  decide

theorem deleteExpired_twice_witness :
    ((sweepEnv 50 false).now = (sweepEnv 50 false).now ∧
      (deleteExpired exCore twoUploads (sweepEnv 50 false)).2 = (1, none) ∧
      (∀ r ∈ twoUploads.rows, r.ExpiresAt < (sweepEnv 50 false).now →
        (sweepEnv 50 false).removeErr r = true → (sweepEnv 50 false).removeErr r = true)) ∧
    (deleteExpired exCore (deleteExpired exCore twoUploads (sweepEnv 50 false)).1
      (sweepEnv 50 false)).2.1 = 0 ∧
    (deleteExpired exCore (deleteExpired exCore twoUploads (sweepEnv 50 false)).1
      (sweepEnv 50 false)).1 = (deleteExpired exCore twoUploads (sweepEnv 50 false)).1 :=
  ⟨⟨rfl, by decide, by decide⟩,
    deleteExpired_twice exCore twoUploads (sweepEnv 50 false) (sweepEnv 50 false) rfl
      (by decide) (by decide)⟩

theorem Put_collision_witness :
    (Catalog oneUpload.rows ∧
      setName { ID := 0, Name := [], CreatedAt := 5, ExpiresAt := 15 } exForm.Ext (putEnv 5 0).draws
        = .ok { ID := 0, Name := bytes "AAAAA.txt", CreatedAt := 5, ExpiresAt := 15 } ∧
      bytes "AAAAA.txt" ∈ oneUpload.rows.map File.Name) ∧
    (∃ e, (Put exCore oneUpload exForm (putEnv 5 0)).2 = .error e ∧ e.isPanic = false ∧
      ((putEnv 5 0).beginErr = false → (putEnv 5 0).execErr = false → e = .uniqueName)) ∧
    (Put exCore oneUpload exForm (putEnv 5 0)).1 = oneUpload ∧
    (oneUpload.rows.filter (fun r => decide (r.Name = bytes "AAAAA.txt"))).length = 1 :=
  ⟨⟨by decide, by decide, by decide⟩,
    Put_collision exCore oneUpload exForm (putEnv 5 0)
      { ID := 0, Name := [], CreatedAt := 5, ExpiresAt := 15 }
      { ID := 0, Name := bytes "AAAAA.txt", CreatedAt := 5, ExpiresAt := 15 }
      (by decide) (by decide) (by decide)⟩

theorem Put_success_witness :
    (Put exCore emptyWorld exForm (putEnv 0 0)).2 = .ok rowA ∧
    getFilePath exCore rowA = bytes "uploads/AAAAA.txt" ∧
    fsRead (Put exCore emptyWorld exForm (putEnv 0 0)).1.fs (getFilePath exCore rowA)
      = some exForm.File ∧
    (Put exCore emptyWorld exForm (putEnv 0 0)).1.rows.filter
      (fun r => decide (r.Name = rowA.Name)) = [rowA] :=
  ⟨by decide, by decide, Put_success exCore emptyWorld exForm (putEnv 0 0) rowA (by decide)⟩

end Fu
